import Mathlib

/-!
Verification development for the mcp-fx-server rate-cache-and-lookup engine.

The engine consists of a tiny in-memory TTL cache (app/cache.py TTLCache,
equivalently the _cache_get/_cache_set pair in main.py), currency-code
normalization and validation (the Currency pydantic type in app/schemas.py),
the provider fetch (app/provider.py fetch_rate, inlined in main.py), and the
two tools get_rate and convert (main.py / app/main.py).

Modelling choices:
* Python floats (rates, amounts, timestamps) are embedded as rationals.
* Wall-clock time is passed explicitly: every operation takes a `now`
  parameter standing for the time.time() reads during that call.
* The HTTP client is an oracle `HttpOracle` mapping the request pair to
  either a transport error or an HttpResponse; provider failures become
  values of `FetchError`.
* Exceptions become `Except` values: pydantic validation errors and the
  RuntimeError wrapper raised by get_rate become constructors of `FxError`.
* Each engine operation also returns the resulting cache state and the
  number of outbound provider fetch invocations it performed, so that
  the at-most-one-fetch and no-fetch properties are directly statable.
-/

namespace FxServer

abbrev Timestamp := ℚ

/-- One entry of the TTL store: insertion timestamp paired with the value,
mirroring the Python tuple (time.time(), value). -/
abbrev TTLStore (V : Type) := String → Option (Timestamp × V)

/-- app/cache.py TTLCache: a ttl (CACHE_TTL seconds) and the underlying dict.
The store is modelled as a function from keys to optional entries. -/
structure TTLCache (V : Type) where
  ttl : ℚ
  store : TTLStore V

/-- TTLCache.get (equivalently _cache_get in main.py): return the stored
value if now - ts <= ttl; on an expired entry, pop it and return none; on an
absent key return none.  The returned cache reflects the lazy eviction. -/
def TTLCache.get {V : Type} (c : TTLCache V) (now : Timestamp) (key : String) :
    Option V × TTLCache V :=
  match c.store key with
  | none => (none, c)
  | some (ts, value) =>
    if now - ts ≤ c.ttl then (some value, c)
    else (none, { c with store := fun k => if k = key then none else c.store k })

/-- TTLCache.set (equivalently _cache_set in main.py): insert or overwrite
the entry for key with the current timestamp. -/
def TTLCache.set {V : Type} (c : TTLCache V) (now : Timestamp) (key : String)
    (value : V) : TTLCache V :=
  { c with store := fun k => if k = key then some (now, value) else c.store k }

/-- TTLCache.clear: remove all entries unconditionally. -/
def TTLCache.clear {V : Type} (c : TTLCache V) : TTLCache V :=
  { c with store := fun _ => none }

/-! ## Currency validation (app/schemas.py) -/

/-- The _to_upper BeforeValidator: Python str.upper, modelled as uppercasing
every character (ASCII uppercasing; currency codes are ASCII). -/
def to_upper (s : String) : String := ⟨s.data.map Char.toUpper⟩

/-- The pydantic Currency constraint after normalization: pattern
[A-Z]{3} together with min_length=3, max_length=3. -/
def isValidCode (s : String) : Bool :=
  s.length == 3 && s.data.all (fun c => 'A' ≤ c && c ≤ 'Z')

/-! ## Provider (app/provider.py, inlined in main.py) -/

/-- The JSON body and status of the provider's HTTP reply: data contains a
"rates" mapping (modelled as an association list) and an optional "date". -/
structure HttpResponse where
  status : Nat
  rates : List (String × ℚ)
  date : Option String
deriving DecidableEq, Repr

/-- The HTTP client capability: either a transport-level error (httpx
exception carrying a message) or a response. -/
abbrev HttpOracle := String → String → Except String HttpResponse

/-- Ways fetch_rate can fail: the transport raised, raise_for_status raised
on a non-success status, or data["rates"][target] is absent (KeyError). -/
inductive FetchError where
  | transport (msg : String)
  | httpStatus (status : Nat)
  | missingRate (target : String)
deriving DecidableEq, Repr

/-- Association-list lookup standing for the Python dict access
data["rates"][target]. -/
def lookupRate : List (String × ℚ) → String → Option ℚ
  | [], _ => none
  | (k, v) :: rest, target => if k = target then some v else lookupRate rest target

/-- app/provider.py fetch_rate: GET /latest?base=...&symbols=..., raise for
non-success status, then read data["rates"][target] and data.get("date"). -/
def fetch_rate (oracle : HttpOracle) (base target : String) :
    Except FetchError (ℚ × Option String) :=
  match oracle base target with
  | .error msg => .error (.transport msg)
  | .ok resp =>
    if 400 ≤ resp.status then .error (.httpStatus resp.status)
    else
      match lookupRate resp.rates target with
      | none => .error (.missingRate target)
      | some rate => .ok (rate, resp.date)

/-! ## Response models and errors -/

/-- The payload dict cached by get_rate:
{base, target, rate, fetched_at}. -/
structure RateRecord where
  base : String
  target : String
  rate : ℚ
  fetched_at : Option String
deriving DecidableEq, Repr

/-- app/schemas.py RateResponse. -/
structure RateResponse where
  base : String
  target : String
  rate : ℚ
  fetched_at : Option String
  provider : String
deriving DecidableEq, Repr

/-- RateResponse(**payload): the provider field takes its default. -/
def RateRecord.toResponse (r : RateRecord) : RateResponse :=
  ⟨r.base, r.target, r.rate, r.fetched_at, "frankfurter.dev"⟩

/-- app/schemas.py ConvertResponse. -/
structure ConvertResponse where
  from_currency : String
  to_currency : String
  amount : ℚ
  converted : ℚ
  rate : ℚ
  fetched_at : Option String
  provider : String
deriving DecidableEq, Repr

/-- The error kinds surfaced by the tools: the two pydantic validation
failures (spec: InvalidCurrencyCode, InvalidAmount) and the RuntimeError
wrapper around any provider failure (spec: ProviderFetchFailed), which
carries the attempted pair and the underlying cause. -/
inductive FxError where
  | invalidCurrencyCode (code : String)
  | invalidAmount (amount : ℚ)
  | providerFetchFailed (base target : String) (cause : FetchError)
deriving DecidableEq, Repr

/-- The cache used by the engine stores RateRecord payloads. -/
abbrev Cache := TTLCache RateRecord

/-- Outcome of one tool invocation: the returned value or raised error, the
cache state afterwards, and how many provider fetches were performed. -/
structure EngineResult (α : Type) where
  result : Except FxError α
  cache : Cache
  fetchCount : Nat

/-! ## get_rate (main.py lines 84-110, app/main.py lines 42-73) -/

/-- The cache key: f"rate:\x7bbase\x7d:\x7btarget\x7d". -/
def rateKey (base target : String) : String :=
  "rate:" ++ base ++ ":" ++ target

/-- Body of get_rate, after @validate_call has normalized and validated both
codes: identity short-circuit, cache lookup, fetch on miss with the
RuntimeError wrapper, cache population on success. -/
def get_rate_core (oracle : HttpOracle) (now : Timestamp) (cache : Cache)
    (base target : String) : EngineResult RateResponse :=
  if base = target then
    ⟨.ok ⟨base, target, 1, none, "frankfurter.dev"⟩, cache, 0⟩
  else
    match TTLCache.get cache now (rateKey base target) with
    | (some hit, cache1) => ⟨.ok hit.toResponse, cache1, 0⟩
    | (none, cache1) =>
      match fetch_rate oracle base target with
      | .error e => ⟨.error (.providerFetchFailed base target e), cache1, 1⟩
      | .ok (rate, fetched_at) =>
        ⟨.ok (RateRecord.toResponse ⟨base, target, rate, fetched_at⟩),
          cache1.set now (rateKey base target) ⟨base, target, rate, fetched_at⟩, 1⟩

/-- get_rate as exposed: @validate_call first uppercases both Currency
arguments and rejects any that fails the 3-letter pattern, then runs the
body. -/
def get_rate (oracle : HttpOracle) (now : Timestamp) (cache : Cache)
    (base target : String) : EngineResult RateResponse :=
  if !isValidCode (to_upper base) then
    ⟨.error (.invalidCurrencyCode (to_upper base)), cache, 0⟩
  else if !isValidCode (to_upper target) then
    ⟨.error (.invalidCurrencyCode (to_upper target)), cache, 0⟩
  else get_rate_core oracle now cache (to_upper base) (to_upper target)

/-! ## convert (main.py lines 113-153, app/main.py lines 76-121) -/

/-- Body of convert after validation: identity short-circuit, direct cache
read, delegation to get_rate on miss, then converted = amount * rate. -/
def convert_core (oracle : HttpOracle) (now : Timestamp) (cache : Cache)
    (amount : ℚ) (from_ to_currency : String) : EngineResult ConvertResponse :=
  if from_ = to_currency then
    ⟨.ok ⟨from_, to_currency, amount, amount, 1, none, "frankfurter.dev"⟩, cache, 0⟩
  else
    match TTLCache.get cache now (rateKey from_ to_currency) with
    | (some hit, cache1) =>
      ⟨.ok ⟨from_, to_currency, amount, amount * hit.rate, hit.rate,
        hit.fetched_at, "frankfurter.dev"⟩, cache1, 0⟩
    | (none, cache1) =>
      match (get_rate oracle now cache1 from_ to_currency).result with
      | .error e =>
        ⟨.error e, (get_rate oracle now cache1 from_ to_currency).cache,
          (get_rate oracle now cache1 from_ to_currency).fetchCount⟩
      | .ok resp =>
        ⟨.ok ⟨from_, to_currency, amount, amount * resp.rate, resp.rate,
          resp.fetched_at, "frankfurter.dev"⟩,
          (get_rate oracle now cache1 from_ to_currency).cache,
          (get_rate oracle now cache1 from_ to_currency).fetchCount⟩

/-- convert as exposed: @validate_call checks amount against ge=0
(NonNegativeAmount) and normalizes/validates both Currency arguments before
the body runs. -/
def convert (oracle : HttpOracle) (now : Timestamp) (cache : Cache)
    (amount : ℚ) (from_ to_currency : String) : EngineResult ConvertResponse :=
  if amount < 0 then ⟨.error (.invalidAmount amount), cache, 0⟩
  else if !isValidCode (to_upper from_) then
    ⟨.error (.invalidCurrencyCode (to_upper from_)), cache, 0⟩
  else if !isValidCode (to_upper to_currency) then
    ⟨.error (.invalidCurrencyCode (to_upper to_currency)), cache, 0⟩
  else convert_core oracle now cache amount (to_upper from_) (to_upper to_currency)

/-! ## Helper lemmas about the TTL cache -/

/-- A get on an absent key returns none and leaves the cache untouched. -/
lemma TTLCache.get_of_store_none {V : Type} (c : TTLCache V) (now : Timestamp)
    (k : String) (h : c.store k = none) : c.get now k = (none, c) := by
  simp [TTLCache.get, h]

/-- Whatever a get returns, the resulting cache's value under the queried key
either is unchanged or has been evicted; in particular after a miss the key
is absent. -/
lemma TTLCache.get_miss_store {V : Type} (c : TTLCache V) (now : Timestamp)
    (k : String) (h : (c.get now k).1 = none) : (c.get now k).2.store k = none := by
  unfold TTLCache.get at *
  match hs : c.store k with
  | none => simp [hs]
  | some (ts, value) =>
    simp only [hs] at h ⊢
    by_cases hle : now - ts ≤ c.ttl
    · simp [hle] at h
    · simp [hle]

/-- A get never changes entries under other keys. -/
lemma TTLCache.get_store_other {V : Type} (c : TTLCache V) (now : Timestamp)
    (k k' : String) (h : k' ≠ k) : (c.get now k).2.store k' = c.store k' := by
  unfold TTLCache.get
  match hs : c.store k with
  | none => rfl
  | some (ts, value) =>
    by_cases hle : now - ts ≤ c.ttl <;> simp [hle, h]

/-- A get never changes the ttl. -/
lemma TTLCache.get_ttl {V : Type} (c : TTLCache V) (now : Timestamp)
    (k : String) : (c.get now k).2.ttl = c.ttl := by
  unfold TTLCache.get
  match hs : c.store k with
  | none => rfl
  | some (ts, value) =>
    by_cases hle : now - ts ≤ c.ttl <;> simp [hle]

/-- Set writes the entry under its own key. -/
lemma TTLCache.set_store_self {V : Type} (c : TTLCache V) (now : Timestamp)
    (k : String) (v : V) : (c.set now k v).store k = some (now, v) := by
  simp [TTLCache.set]

/-- Set leaves entries under other keys unchanged. -/
lemma TTLCache.set_store_other {V : Type} (c : TTLCache V) (now : Timestamp)
    (k k' : String) (v : V) (h : k' ≠ k) : (c.set now k v).store k' = c.store k' := by
  simp [TTLCache.set, h]

/-! ## Claim theorems -/

/-- C3: TTL cache contract: a get after a set with elapsed time at most the
TTL returns exactly the value passed to set (for any value, including ones
that are falsy in Python, since the stored pair is a two-tuple and hence
always truthy); a get on a key never set returns absent and changes nothing;
a get on an expired entry returns absent and removes exactly that entry from
the store (eviction on read only). -/
theorem C3_ttl_cache_contract {V : Type} (c : TTLCache V) (k : String) (v : V)
    (tset now : Timestamp) :
    (now - tset ≤ c.ttl → ((c.set tset k v).get now k).1 = some v) ∧
    (c.store k = none → c.get now k = (none, c)) ∧
    (∀ ts w, c.store k = some (ts, w) → c.ttl < now - ts →
      c.get now k =
        (none, { c with store := fun k2 => if k2 = k then none else c.store k2 })) := by
  refine ⟨fun hle => ?_, fun habs => TTLCache.get_of_store_none c now k habs,
    fun ts w hsome hgt => ?_⟩
  · simp [TTLCache.get, TTLCache.set, hle]
  · simp [TTLCache.get, hsome, not_le.mpr hgt]

/-- Concrete cache used to witness the TTL cache contract; it holds one
entry (inserted at time 0) whose value is the Python-falsy number 0. -/
def wCacheNat : TTLCache Nat :=
  ⟨30, fun k => if k = "rate:USD:EUR" then some (0, 0) else none⟩

/-- Witness for C3 at concrete inputs: a fresh set of the falsy value 0 is
returned by a get 10 seconds later; a get on an absent key changes nothing;
a get 100 seconds after insertion evicts exactly the expired entry. -/
theorem C3_ttl_cache_contract_witness :
    ((wCacheNat.set 0 "k" 0).get 10 "k").1 = some 0 ∧
    wCacheNat.get 10 "zzz" = (none, wCacheNat) ∧
    wCacheNat.get 100 "rate:USD:EUR" =
      (none, { wCacheNat with
        store := fun k2 => if k2 = "rate:USD:EUR" then none else wCacheNat.store k2 }) := by
  refine ⟨(C3_ttl_cache_contract wCacheNat "k" 0 0 10).1 (by norm_num [wCacheNat]),
    (C3_ttl_cache_contract wCacheNat "zzz" 0 0 10).2.1 rfl,
    (C3_ttl_cache_contract wCacheNat "rate:USD:EUR" 0 0 100).2.2 0 0 rfl
      (by norm_num [wCacheNat])⟩

/-- C2: identity short-circuit: for any valid code in any casing, get_rate
on the identical pair returns rate 1 with null fetched_at, and convert
returns the amount unchanged with rate 1 and null fetched_at; in both cases
the cache state is exactly the input state and the fetch capability is
invoked zero times. -/
theorem C2_identity_short_circuit (oracle : HttpOracle) (now : Timestamp)
    (cache : Cache) (x : String) (a : ℚ)
    (hx : isValidCode (to_upper x) = true) (ha : 0 ≤ a) :
    get_rate oracle now cache x x =
      ⟨.ok ⟨to_upper x, to_upper x, 1, none, "frankfurter.dev"⟩, cache, 0⟩ ∧
    convert oracle now cache a x x =
      ⟨.ok ⟨to_upper x, to_upper x, a, a, 1, none, "frankfurter.dev"⟩, cache, 0⟩ := by
  constructor
  · simp [get_rate, get_rate_core, hx]
  · simp [convert, convert_core, hx, not_lt.mpr ha]

/-- Witness for C2 at the lower-case code "jpy" and amount 123.45 (so also
covering normalization inside the short-circuit), against an oracle that
would fail if ever consulted. -/
theorem C2_identity_short_circuit_witness :
    get_rate (fun _ _ => .error "boom") 5 ⟨30, fun _ => none⟩ "jpy" "jpy" =
      ⟨.ok ⟨"JPY", "JPY", 1, none, "frankfurter.dev"⟩, ⟨30, fun _ => none⟩, 0⟩ ∧
    convert (fun _ _ => .error "boom") 5 ⟨30, fun _ => none⟩ (12345/100) "jpy" "jpy" =
      ⟨.ok ⟨"JPY", "JPY", 12345/100, 12345/100, 1, none, "frankfurter.dev"⟩,
        ⟨30, fun _ => none⟩, 0⟩ := by
  exact C2_identity_short_circuit (fun _ _ => .error "boom") 5
    ⟨30, fun _ => none⟩ "jpy" (12345/100) (by decide) (by norm_num)

/-- A concrete oracle standing for a provider that quotes 0.9 for EUR,
matching the spec's worked example. -/
def oracle09 : HttpOracle :=
  fun _ _ => .ok ⟨200, [("EUR", 9/10)], some "2025-11-02"⟩

/-- The cache at process start: the configured default ttl of 30 seconds
and an empty store. -/
def emptyCache : Cache := ⟨30, fun _ => none⟩

/-- get_rate can never raise the amount validation error: its only error
outcomes are invalidCurrencyCode from validation and providerFetchFailed
from the fetch wrapper. -/
lemma get_rate_result_ne_invalidAmount (oracle : HttpOracle) (now : Timestamp)
    (cache : Cache) (b t : String) (x : ℚ) :
    (get_rate oracle now cache b t).result ≠ .error (.invalidAmount x) := by
  unfold get_rate get_rate_core
  split
  · simp
  split
  · simp
  split
  · simp
  split
  · simp
  split <;> simp

/-- C5: for every resolved rate and every amount, convert reports exactly
converted = amount * rate (no rounding of the product); with a fetched rate
of 0.9, convert(100, USD, EUR) yields converted 90 and rate 0.9; and on the
identity pair convert returns the amount unchanged with rate 1. -/
theorem C5_conversion_arithmetic (oracle : HttpOracle) (now : Timestamp)
    (cache : Cache) (a : ℚ) (f t : String) :
    (∀ res, (convert oracle now cache a f t).result = .ok res →
      res.converted = res.amount * res.rate ∧ res.amount = a) ∧
    (convert oracle09 now emptyCache 100 "USD" "EUR").result =
      .ok ⟨"USD", "EUR", 100, 90, 9/10, some "2025-11-02", "frankfurter.dev"⟩ ∧
    (0 ≤ a → isValidCode (to_upper f) = true →
      (convert oracle now cache a f f).result =
        .ok ⟨to_upper f, to_upper f, a, a, 1, none, "frankfurter.dev"⟩) := by
  refine ⟨fun res hres => ?_, ?_, fun ha hf => ?_⟩
  · unfold convert convert_core at hres
    split at hres
    · simp at hres
    split at hres
    · simp at hres
    split at hres
    · simp at hres
    split at hres
    · simp only [Except.ok.injEq] at hres
      subst hres
      simp
    split at hres
    · simp only [Except.ok.injEq] at hres
      subst hres
      exact ⟨rfl, rfl⟩
    split at hres
    · simp at hres
    · simp only [Except.ok.injEq] at hres
      subst hres
      exact ⟨rfl, rfl⟩
  · have hmul : ((100 : ℚ) * (9/10)) = 90 := by norm_num
    have hvU : isValidCode "USD" = true := by decide
    have hvE : isValidCode "EUR" = true := by decide
    have hupU : to_upper "USD" = "USD" := by decide
    have hupE : to_upper "EUR" = "EUR" := by decide
    have hne : ("USD" : String) ≠ "EUR" := by decide
    have h100 : ¬((100 : ℚ) < 0) := by norm_num
    simp [convert, convert_core, get_rate, get_rate_core, oracle09, emptyCache, h100,
      fetch_rate, lookupRate, TTLCache.get, TTLCache.set,
      RateRecord.toResponse, hmul, hvU, hvE, hupU, hupE, hne]
  · simp [convert, convert_core, hf, not_lt.mpr ha]

/-- Witness for C5: the concrete 100 USD to EUR conversion at rate 0.9, the
product law instantiated at its result record (90 = 100 * 0.9), and the
identity conversion of 7 JPY. -/
theorem C5_conversion_arithmetic_witness :
    (convert oracle09 0 emptyCache 100 "USD" "EUR").result =
      .ok ⟨"USD", "EUR", 100, 90, 9/10, some "2025-11-02", "frankfurter.dev"⟩ ∧
    ConvertResponse.converted
        ⟨"USD", "EUR", 100, 90, 9/10, some "2025-11-02", "frankfurter.dev"⟩ =
      ConvertResponse.amount
          ⟨"USD", "EUR", 100, 90, 9/10, some "2025-11-02", "frankfurter.dev"⟩ *
        ConvertResponse.rate
          ⟨"USD", "EUR", 100, 90, 9/10, some "2025-11-02", "frankfurter.dev"⟩ ∧
    (convert oracle09 0 emptyCache 7 "jpy" "jpy").result =
      .ok ⟨"JPY", "JPY", 7, 7, 1, none, "frankfurter.dev"⟩ := by
  obtain ⟨h1, h2, h3⟩ := C5_conversion_arithmetic oracle09 0 emptyCache 100 "USD" "EUR"
  obtain ⟨h1j, _, h3j⟩ := C5_conversion_arithmetic oracle09 0 emptyCache 7 "jpy" "jpy"
  exact ⟨h2, (h1 _ h2).1, h3j (by norm_num) (by decide)⟩

/-- C6: validation precedes all effects.  A base code failing the 3-letter
pattern after uppercasing makes get_rate fail with invalidCurrencyCode on
that code; with a valid base and an invalid target, on the target code; the
same holds for convert once the non-negative amount check passed; a negative
amount makes convert fail with invalidAmount regardless of the codes; and a
non-negative amount (in particular zero) is never rejected as invalidAmount.
Every validation failure returns the cache exactly as it was and performs
zero fetches. -/
theorem C6_validation_precedes_effects (oracle : HttpOracle) (now : Timestamp)
    (cache : Cache) (a : ℚ) (b t : String) :
    (isValidCode (to_upper b) = false →
      get_rate oracle now cache b t =
        ⟨.error (.invalidCurrencyCode (to_upper b)), cache, 0⟩) ∧
    (isValidCode (to_upper b) = true → isValidCode (to_upper t) = false →
      get_rate oracle now cache b t =
        ⟨.error (.invalidCurrencyCode (to_upper t)), cache, 0⟩) ∧
    (a < 0 → convert oracle now cache a b t = ⟨.error (.invalidAmount a), cache, 0⟩) ∧
    (0 ≤ a → isValidCode (to_upper b) = false →
      convert oracle now cache a b t =
        ⟨.error (.invalidCurrencyCode (to_upper b)), cache, 0⟩) ∧
    (0 ≤ a → isValidCode (to_upper b) = true → isValidCode (to_upper t) = false →
      convert oracle now cache a b t =
        ⟨.error (.invalidCurrencyCode (to_upper t)), cache, 0⟩) ∧
    (0 ≤ a → ∀ x, (convert oracle now cache a b t).result ≠ .error (.invalidAmount x)) := by
  refine ⟨fun hb => ?_, fun hb ht => ?_, fun ha => ?_, fun ha hb => ?_,
    fun ha hb ht => ?_, fun ha x => ?_⟩
  · simp [get_rate, hb]
  · simp [get_rate, hb, ht]
  · simp [convert, ha]
  · simp [convert, not_lt.mpr ha, hb]
  · simp [convert, not_lt.mpr ha, hb, ht]
  · unfold convert convert_core
    rw [if_neg (not_lt.mpr ha)]
    split
    · simp
    split
    · simp
    split
    · simp
    split
    · simp
    split
    · rename_i e heq
      simp only [ne_eq, Except.error.injEq]
      intro hcontra
      exact get_rate_result_ne_invalidAmount oracle now _ (to_upper b) (to_upper t) x
        (by rw [heq, hcontra])
    · simp

/-! ## Path lemmas for the engine -/

/-- With both codes valid after uppercasing, get_rate runs its body on the
normalized codes. -/
lemma get_rate_eq_core (oracle : HttpOracle) (now : Timestamp) (cache : Cache)
    (b t : String) (hb : isValidCode (to_upper b) = true)
    (ht : isValidCode (to_upper t) = true) :
    get_rate oracle now cache b t =
      get_rate_core oracle now cache (to_upper b) (to_upper t) := by
  simp [get_rate, hb, ht]

/-- Cache-hit path of the get_rate body. -/
lemma get_rate_core_hit (oracle : HttpOracle) (now : Timestamp) (cache : Cache)
    (B T : String) (hit : RateRecord) (c1 : Cache) (hne : B ≠ T)
    (h : TTLCache.get cache now (rateKey B T) = (some hit, c1)) :
    get_rate_core oracle now cache B T = ⟨.ok hit.toResponse, c1, 0⟩ := by
  unfold get_rate_core
  rw [if_neg hne, h]

/-- Miss path with a failing fetch: the coarse wrapped error is returned,
the cache is the post-read cache (no write), one fetch was attempted. -/
lemma get_rate_core_miss_fetch_error (oracle : HttpOracle) (now : Timestamp)
    (cache : Cache) (B T : String) (c1 : Cache) (e : FetchError) (hne : B ≠ T)
    (h : TTLCache.get cache now (rateKey B T) = (none, c1))
    (hfo : fetch_rate oracle B T = .error e) :
    get_rate_core oracle now cache B T =
      ⟨.error (.providerFetchFailed B T e), c1, 1⟩ := by
  unfold get_rate_core
  rw [if_neg hne, h, hfo]

/-- Miss path with a successful fetch: the freshly built record is stored
under the pair's key and returned; one fetch happened. -/
lemma get_rate_core_miss_fetch_ok (oracle : HttpOracle) (now : Timestamp)
    (cache : Cache) (B T : String) (c1 : Cache) (q : ℚ) (d : Option String)
    (hne : B ≠ T) (h : TTLCache.get cache now (rateKey B T) = (none, c1))
    (hfo : fetch_rate oracle B T = .ok (q, d)) :
    get_rate_core oracle now cache B T =
      ⟨.ok (RateRecord.toResponse ⟨B, T, q, d⟩),
        c1.set now (rateKey B T) ⟨B, T, q, d⟩, 1⟩ := by
  unfold get_rate_core
  rw [if_neg hne, h, hfo]

/-- On any miss the body performs exactly one fetch, whatever its outcome. -/
lemma get_rate_core_miss_fetchCount (oracle : HttpOracle) (now : Timestamp)
    (cache : Cache) (B T : String) (hne : B ≠ T)
    (h : (TTLCache.get cache now (rateKey B T)).1 = none) :
    (get_rate_core oracle now cache B T).fetchCount = 1 := by
  unfold get_rate_core
  rw [if_neg hne]
  match hp : TTLCache.get cache now (rateKey B T) with
  | (some hit, c1) => rw [hp] at h; simp at h
  | (none, c1) =>
    rcases hfo : fetch_rate oracle B T with e | ⟨q, od⟩ <;> simp [hfo]

/-- Witness for C6 on the spec's own examples: get_rate("US","EUR") and
convert(10,"US$","EUR") fail with the invalid-code error carrying the bad
code, get_rate("USD","EU1") and convert(10,"USD","EU1") report the target,
convert(-5,"USD","EUR") fails with the invalid-amount error, and an amount
of zero is not rejected as invalid; all against an untouched cache and with
zero fetches. -/
theorem C6_validation_precedes_effects_witness :
    get_rate oracle09 0 emptyCache "US" "EUR" =
      ⟨.error (.invalidCurrencyCode "US"), emptyCache, 0⟩ ∧
    get_rate oracle09 0 emptyCache "USD" "EU1" =
      ⟨.error (.invalidCurrencyCode "EU1"), emptyCache, 0⟩ ∧
    convert oracle09 0 emptyCache (-5) "USD" "EUR" =
      ⟨.error (.invalidAmount (-5)), emptyCache, 0⟩ ∧
    convert oracle09 0 emptyCache 10 "US$" "EUR" =
      ⟨.error (.invalidCurrencyCode "US$"), emptyCache, 0⟩ ∧
    convert oracle09 0 emptyCache 10 "USD" "EU1" =
      ⟨.error (.invalidCurrencyCode "EU1"), emptyCache, 0⟩ ∧
    (convert oracle09 0 emptyCache 0 "USD" "EUR").result ≠
      .error (.invalidAmount 0) := by
  refine ⟨(C6_validation_precedes_effects oracle09 0 emptyCache 0 "US" "EUR").1
      (by decide),
    (C6_validation_precedes_effects oracle09 0 emptyCache 0 "USD" "EU1").2.1
      (by decide) (by decide),
    (C6_validation_precedes_effects oracle09 0 emptyCache (-5) "USD" "EUR").2.2.1
      (by norm_num),
    (C6_validation_precedes_effects oracle09 0 emptyCache 10 "US$" "EUR").2.2.2.1
      (by norm_num) (by decide),
    (C6_validation_precedes_effects oracle09 0 emptyCache 10 "USD" "EU1").2.2.2.2.1
      (by norm_num) (by decide) (by decide),
    (C6_validation_precedes_effects oracle09 0 emptyCache 0 "USD" "EUR").2.2.2.2.2
      (by norm_num) 0⟩

/-- C1: for a valid normalized non-equal pair whose key misses the cache and
whose fetch succeeds, the first get_rate call performs exactly one fetch and
returns the fetched record; a second call within the TTL window of the
insertion performs zero further fetches (one fetch total across both calls)
and returns an equal record; a call after the TTL window has elapsed treats
the key as a miss and performs exactly one new fetch. -/
theorem C1_cache_population_and_expiry (oracle oracle2 : HttpOracle)
    (c : Cache) (B T : String) (t1 t2 : Timestamp) (r : ℚ) (d : Option String)
    (hB : isValidCode B = true) (hT : isValidCode T = true)
    (hnB : to_upper B = B) (hnT : to_upper T = T) (hne : B ≠ T)
    (hmiss : c.store (rateKey B T) = none)
    (hfetch : fetch_rate oracle B T = .ok (r, d)) :
    (get_rate oracle t1 c B T).fetchCount = 1 ∧
    (get_rate oracle t1 c B T).result = .ok ⟨B, T, r, d, "frankfurter.dev"⟩ ∧
    (t2 - t1 ≤ c.ttl →
      (get_rate oracle2 t2 (get_rate oracle t1 c B T).cache B T).fetchCount = 0 ∧
      (get_rate oracle2 t2 (get_rate oracle t1 c B T).cache B T).result =
        (get_rate oracle t1 c B T).result) ∧
    (c.ttl < t2 - t1 →
      (get_rate oracle2 t2 (get_rate oracle t1 c B T).cache B T).fetchCount = 1) := by
  have hb' : isValidCode (to_upper B) = true := by rw [hnB]; exact hB
  have ht' : isValidCode (to_upper T) = true := by rw [hnT]; exact hT
  have h0 : TTLCache.get c t1 (rateKey B T) = (none, c) :=
    TTLCache.get_of_store_none c t1 _ hmiss
  have h1 : get_rate oracle t1 c B T =
      ⟨.ok (RateRecord.toResponse ⟨B, T, r, d⟩),
        c.set t1 (rateKey B T) ⟨B, T, r, d⟩, 1⟩ := by
    rw [get_rate_eq_core oracle t1 c B T hb' ht', hnB, hnT]
    exact get_rate_core_miss_fetch_ok oracle t1 c B T c r d hne h0 hfetch
  refine ⟨by rw [h1], by rw [h1]; rfl, fun hle => ?_, fun hgt => ?_⟩
  · have hget2 : TTLCache.get (c.set t1 (rateKey B T) ⟨B, T, r, d⟩) t2
        (rateKey B T) = (some ⟨B, T, r, d⟩, c.set t1 (rateKey B T) ⟨B, T, r, d⟩) := by
      simp [TTLCache.get, TTLCache.set, hle]
    rw [h1]
    rw [get_rate_eq_core oracle2 t2 _ B T hb' ht', hnB, hnT,
      get_rate_core_hit oracle2 t2 _ B T _ _ hne hget2]
    exact ⟨rfl, rfl⟩
  · have hget2 : (TTLCache.get (c.set t1 (rateKey B T) ⟨B, T, r, d⟩) t2
        (rateKey B T)).1 = none := by
      simp [TTLCache.get, TTLCache.set, not_le.mpr hgt]
    rw [h1]
    rw [get_rate_eq_core oracle2 t2 _ B T hb' ht', hnB, hnT]
    exact get_rate_core_miss_fetchCount oracle2 t2 _ B T hne hget2

/-- Witness for C1: a USD to EUR lookup against the 0.9 oracle starting from
the empty cache at time 0, re-queried at time 10 (inside the 30-second TTL)
against an oracle that would fail if consulted, and at time 31 (outside the
TTL window). -/
theorem C1_cache_population_and_expiry_witness :
    ((get_rate oracle09 0 emptyCache "USD" "EUR").fetchCount = 1 ∧
      (get_rate (fun _ _ => .error "down") 10
        (get_rate oracle09 0 emptyCache "USD" "EUR").cache "USD" "EUR").fetchCount = 0 ∧
      (get_rate (fun _ _ => .error "down") 10
        (get_rate oracle09 0 emptyCache "USD" "EUR").cache "USD" "EUR").result =
        (get_rate oracle09 0 emptyCache "USD" "EUR").result) ∧
    (get_rate (fun _ _ => .error "down") 31
      (get_rate oracle09 0 emptyCache "USD" "EUR").cache "USD" "EUR").fetchCount = 1 := by
  have h10 := C1_cache_population_and_expiry oracle09 (fun _ _ => .error "down")
    emptyCache "USD" "EUR" 0 10 (9/10) (some "2025-11-02")
    (by decide) (by decide) (by decide) (by decide) (by decide) rfl rfl
  have h31 := C1_cache_population_and_expiry oracle09 (fun _ _ => .error "down")
    emptyCache "USD" "EUR" 0 31 (9/10) (some "2025-11-02")
    (by decide) (by decide) (by decide) (by decide) (by decide) rfl rfl
  exact ⟨⟨h10.1, h10.2.2.1 (by norm_num [emptyCache])⟩,
    h31.2.2.2 (by norm_num [emptyCache])⟩

/-- A provider that always fails at the transport level. -/
def failOracle : HttpOracle := fun _ _ => .error "connection refused"

/-- A cache holding one stale USD to EUR entry inserted at time 0, with the
default 30-second ttl. -/
def staleCache : Cache :=
  ⟨30, fun k => if k = rateKey "USD" "EUR" then
      some (0, ⟨"USD", "EUR", 9/10, some "2025-01-01"⟩) else none⟩

/-- C4 counterexample: at time 100 the cached USD to EUR entry is expired;
get_rate's cache read lazily evicts it and the fetch then fails.  The call
does fail with the wrapped provider error, but the cache state after the
failed call is not equal to the cache state before it (the expired entry is
gone), refuting the claim's state-equality part. -/
theorem C4_counterexample :
    (get_rate failOracle 100 staleCache "USD" "EUR").result =
      .error (.providerFetchFailed "USD" "EUR" (.transport "connection refused")) ∧
    (get_rate failOracle 100 staleCache "USD" "EUR").cache ≠ staleCache := by
  have hexp : ¬((100 : ℚ) - 0 ≤ 30) := by norm_num
  have hstore : staleCache.store (rateKey "USD" "EUR") =
      some (0, ⟨"USD", "EUR", 9/10, some "2025-01-01"⟩) := by
    simp [staleCache]
  have hget : TTLCache.get staleCache 100 (rateKey "USD" "EUR") =
      (none, { staleCache with
        store := fun k => if k = rateKey "USD" "EUR" then none
          else staleCache.store k }) := by
    unfold TTLCache.get
    rw [hstore]
    simp [hexp, staleCache]
    norm_num
  have hU : to_upper "USD" = "USD" := by decide
  have hE : to_upper "EUR" = "EUR" := by decide
  have hcall : get_rate failOracle 100 staleCache "USD" "EUR" =
      ⟨.error (.providerFetchFailed "USD" "EUR" (.transport "connection refused")),
        { staleCache with
          store := fun k => if k = rateKey "USD" "EUR" then none
            else staleCache.store k }, 1⟩ := by
    rw [get_rate_eq_core failOracle 100 staleCache "USD" "EUR" (by decide) (by decide),
      hU, hE]
    exact get_rate_core_miss_fetch_error failOracle 100 staleCache "USD" "EUR" _
      (.transport "connection refused") (by decide) hget rfl
  refine ⟨by rw [hcall], ?_⟩
  rw [hcall]
  intro hcon
  have hk := congrArg (fun cc => cc.store (rateKey "USD" "EUR")) hcon
  simp [staleCache] at hk

/-- C4 (amended): whenever the fetch fails on a cache miss for a valid
non-equal pair, get_rate fails with the single coarse providerFetchFailed
error carrying the normalized pair and the underlying cause (the raw fetch
error never escapes as-is), exactly one fetch was attempted, and the cache
state after the call is exactly the state after the cache read: no cache
write occurs, and every key other than the pair's own key is untouched (the
only possible change is the lazy eviction, by the read, of an expired entry
under the pair's own key). -/
theorem C4_provider_failure_wrapped_no_write (oracle : HttpOracle)
    (now : Timestamp) (c : Cache) (b t : String) (e : FetchError)
    (hb : isValidCode (to_upper b) = true) (ht : isValidCode (to_upper t) = true)
    (hne : to_upper b ≠ to_upper t)
    (hmiss : (TTLCache.get c now (rateKey (to_upper b) (to_upper t))).1 = none)
    (hfail : fetch_rate oracle (to_upper b) (to_upper t) = .error e) :
    get_rate oracle now c b t =
      ⟨.error (.providerFetchFailed (to_upper b) (to_upper t) e),
        (TTLCache.get c now (rateKey (to_upper b) (to_upper t))).2, 1⟩ ∧
    (∀ k, k ≠ rateKey (to_upper b) (to_upper t) →
      ((TTLCache.get c now (rateKey (to_upper b) (to_upper t))).2).store k =
        c.store k) := by
  have hpair : TTLCache.get c now (rateKey (to_upper b) (to_upper t)) =
      (none, (TTLCache.get c now (rateKey (to_upper b) (to_upper t))).2) := by
    rw [← hmiss]
  refine ⟨?_, fun k hk => TTLCache.get_store_other c now _ k hk⟩
  rw [get_rate_eq_core oracle now c b t hb ht]
  exact get_rate_core_miss_fetch_error oracle now c _ _ _ e hne hpair hfail

/-- Witness for C4 (amended): the always-failing transport against the empty
cache; the error wraps the transport cause for the pair USD to EUR, the
post-call cache is the post-read cache, and the reversed pair's key (taken
as the other key) is untouched. -/
theorem C4_provider_failure_wrapped_no_write_witness :
    get_rate failOracle 100 emptyCache "USD" "EUR" =
      ⟨.error (.providerFetchFailed "USD" "EUR" (.transport "connection refused")),
        (TTLCache.get emptyCache 100 (rateKey "USD" "EUR")).2, 1⟩ ∧
    ((TTLCache.get emptyCache 100 (rateKey "USD" "EUR")).2).store
        (rateKey "EUR" "USD") =
      emptyCache.store (rateKey "EUR" "USD") := by
  have h := C4_provider_failure_wrapped_no_write failOracle 100 emptyCache
    "USD" "EUR" (.transport "connection refused")
    (by decide) (by decide) (by decide) rfl rfl
  exact ⟨h.1, h.2 (rateKey "EUR" "USD") (by decide)⟩

/-! ## Key-scheme injectivity -/

/-- A valid code consists of exactly three characters. -/
lemma valid_data_length {s : String} (h : isValidCode s = true) :
    s.data.length = 3 := by
  unfold isValidCode at h
  simp only [Bool.and_eq_true, beq_iff_eq] at h
  exact h.1

/-- The key scheme is injective on pairs whose first component has exactly
three characters: since codes never contain the separator, equal keys force
equal ordered pairs. -/
lemma rateKey_inj {b t b' t' : String} (hb : b.data.length = 3)
    (hb' : b'.data.length = 3) (h : rateKey b t = rateKey b' t') :
    b = b' ∧ t = t' := by
  have hd : "rate:".data ++ (b.data ++ (":".data ++ t.data)) =
      "rate:".data ++ (b'.data ++ (":".data ++ t'.data)) := by
    have e1 : ∀ (x y : String), (x ++ y).data = x.data ++ y.data := fun x y => rfl
    have := congrArg String.data h
    simpa [rateKey, e1, List.append_assoc] using this
  have h1 := List.append_cancel_left hd
  obtain ⟨hbd, hrest⟩ := List.append_inj h1 (by rw [hb, hb'])
  have htd := List.append_cancel_left hrest
  exact ⟨String.ext hbd, String.ext htd⟩

/-- C7: the cache key is a function of the uppercased ordered pair only.
For valid codes, two invocations use the same key exactly when their
uppercased bases agree and their uppercased targets agree; differently-cased
spellings of the same pair produce identical full results of get_rate; and
the reversed pair of a non-equal pair uses a distinct key. -/
theorem C7_cache_key_ordered_normalized_pair (oracle : HttpOracle)
    (now : Timestamp) (c : Cache) (b t b' t' : String) :
    (isValidCode (to_upper b) = true → isValidCode (to_upper b') = true →
      (rateKey (to_upper b) (to_upper t) = rateKey (to_upper b') (to_upper t') ↔
        (to_upper b = to_upper b' ∧ to_upper t = to_upper t'))) ∧
    (to_upper b = to_upper b' → to_upper t = to_upper t' →
      get_rate oracle now c b t = get_rate oracle now c b' t') ∧
    (isValidCode (to_upper b) = true → isValidCode (to_upper t) = true →
      to_upper b ≠ to_upper t →
      rateKey (to_upper b) (to_upper t) ≠ rateKey (to_upper t) (to_upper b)) := by
  refine ⟨fun hb hb' => ⟨fun hkey => ?_, fun hpair => by rw [hpair.1, hpair.2]⟩,
    fun h1 h2 => ?_, fun hb ht hne hkey => ?_⟩
  · exact rateKey_inj (valid_data_length hb) (valid_data_length hb') hkey
  · unfold get_rate
    rw [h1, h2]
  · exact hne (rateKey_inj (valid_data_length hb) (valid_data_length ht) hkey).1

/-- Witness for C7: lower- and upper-case spellings of USD to EUR share the
key and the full get_rate outcome, and the reversed pair EUR to USD has a
different key. -/
theorem C7_cache_key_ordered_normalized_pair_witness :
    (rateKey "USD" "EUR" = rateKey "USD" "EUR" ↔ ("USD" = "USD" ∧ "EUR" = "EUR")) ∧
    get_rate oracle09 7 emptyCache "usd" "EUR" =
      get_rate oracle09 7 emptyCache "USD" "eur" ∧
    rateKey "USD" "EUR" ≠ rateKey "EUR" "USD" := by
  have h := C7_cache_key_ordered_normalized_pair oracle09 7 emptyCache
    "usd" "EUR" "USD" "eur"
  have h2 := C7_cache_key_ordered_normalized_pair oracle09 7 emptyCache
    "USD" "EUR" "USD" "EUR"
  exact ⟨h2.1 (by decide) (by decide), h.2.1 (by decide) (by decide),
    h2.2.2 (by decide) (by decide) (by decide)⟩

/-! ## Normalization is idempotent on valid codes -/

/-- An ASCII uppercase letter is a fixed point of Char.toUpper. -/
lemma Char.toUpper_of_upper {c : Char} (h2 : c ≤ 'Z') : c.toUpper = c := by
  have hle : c.toNat ≤ 90 := by
    simp only [Char.le_def] at h2
    exact h2
  unfold Char.toUpper
  rw [if_neg]
  omega

/-- Mapping a function that fixes every element of a list is the identity
on that list. -/
lemma map_id_of_fixed (l : List Char) (f : Char → Char)
    (h : ∀ x ∈ l, f x = x) : l.map f = l := by
  induction l with
  | nil => rfl
  | cons a as ih =>
    simp only [List.map_cons, h a (by simp)]
    rw [ih (fun x hx => h x (by simp [hx]))]

/-- A string satisfying the validated pattern is a fixed point of
uppercasing: valid codes are already normalized. -/
lemma to_upper_of_valid {s : String} (h : isValidCode s = true) :
    to_upper s = s := by
  unfold isValidCode at h
  simp only [Bool.and_eq_true, List.all_eq_true, decide_eq_true_eq] at h
  obtain ⟨-, hall⟩ := h
  apply String.ext
  show s.data.map Char.toUpper = s.data
  exact map_id_of_fixed _ _ (fun x hx => Char.toUpper_of_upper (hall x hx).2)

/-! ## Path lemmas for convert -/

/-- With a non-negative amount and valid codes, convert runs its body on the
normalized codes. -/
lemma convert_eq_core (oracle : HttpOracle) (now : Timestamp) (cache : Cache)
    (a : ℚ) (b t : String) (ha : 0 ≤ a) (hb : isValidCode (to_upper b) = true)
    (ht : isValidCode (to_upper t) = true) :
    convert oracle now cache a b t =
      convert_core oracle now cache a (to_upper b) (to_upper t) := by
  simp [convert, not_lt.mpr ha, hb, ht]

/-- Cache-hit path of the convert body: the cached rate and fetched_at are
used directly. -/
lemma convert_core_hit (oracle : HttpOracle) (now : Timestamp) (cache : Cache)
    (a : ℚ) (F T : String) (hit : RateRecord) (c1 : Cache) (hne : F ≠ T)
    (h : TTLCache.get cache now (rateKey F T) = (some hit, c1)) :
    convert_core oracle now cache a F T =
      ⟨.ok ⟨F, T, a, a * hit.rate, hit.rate, hit.fetched_at,
        "frankfurter.dev"⟩, c1, 0⟩ := by
  unfold convert_core
  rw [if_neg hne, h]

/-- Miss path of the convert body when the delegated get_rate succeeds. -/
lemma convert_core_miss_delegate_ok (oracle : HttpOracle) (now : Timestamp)
    (cache : Cache) (a : ℚ) (F T : String) (c1 : Cache) (resp : RateResponse)
    (hne : F ≠ T) (h : TTLCache.get cache now (rateKey F T) = (none, c1))
    (hinner : (get_rate oracle now c1 F T).result = .ok resp) :
    convert_core oracle now cache a F T =
      ⟨.ok ⟨F, T, a, a * resp.rate, resp.rate, resp.fetched_at,
        "frankfurter.dev"⟩, (get_rate oracle now c1 F T).cache,
        (get_rate oracle now c1 F T).fetchCount⟩ := by
  unfold convert_core
  rw [if_neg hne, h]
  dsimp only
  rw [hinner]

/-- Miss path of the convert body when the delegated get_rate raises: the
error propagates unchanged. -/
lemma convert_core_miss_delegate_error (oracle : HttpOracle) (now : Timestamp)
    (cache : Cache) (a : ℚ) (F T : String) (c1 : Cache) (e : FxError)
    (hne : F ≠ T) (h : TTLCache.get cache now (rateKey F T) = (none, c1))
    (hinner : (get_rate oracle now c1 F T).result = .error e) :
    convert_core oracle now cache a F T =
      ⟨.error e, (get_rate oracle now c1 F T).cache,
        (get_rate oracle now c1 F T).fetchCount⟩ := by
  unfold convert_core
  rw [if_neg hne, h]
  dsimp only
  rw [hinner]

/-- Restarting the get_rate body from the post-read cache of a missed read
gives the same outcome as running it on the original cache: the read of a
key that just missed misses again without further eviction. -/
lemma get_rate_core_restart_of_miss (oracle : HttpOracle) (now : Timestamp)
    (c c1 : Cache) (B T : String) (hne : B ≠ T)
    (h : TTLCache.get c now (rateKey B T) = (none, c1)) :
    get_rate_core oracle now c B T = get_rate_core oracle now c1 B T := by
  have h1 : c1.store (rateKey B T) = none := by
    have hm := TTLCache.get_miss_store c now (rateKey B T) (by rw [h])
    rw [h] at hm
    exact hm
  have h2 : TTLCache.get c1 now (rateKey B T) = (none, c1) :=
    TTLCache.get_of_store_none c1 now _ h1
  unfold get_rate_core
  rw [if_neg hne, if_neg hne, h, h2]

/-- C8: for every cache state and every valid normalized non-equal pair,
convert is observationally equivalent to get_rate on the same state: its
result is exactly the image of get_rate's result (same rate and fetched_at,
converted = amount * rate, same propagated error), and it leaves the same
cache state and performs the same number of fetches. -/
theorem C8_convert_refines_get_rate (oracle : HttpOracle) (now : Timestamp)
    (c : Cache) (a : ℚ) (B T : String)
    (hB : isValidCode B = true) (hT : isValidCode T = true)
    (hnB : to_upper B = B) (hnT : to_upper T = T) (hne : B ≠ T) (ha : 0 ≤ a) :
    (convert oracle now c a B T).result =
      ((get_rate oracle now c B T).result).map
        (fun rr => ⟨B, T, a, a * rr.rate, rr.rate, rr.fetched_at,
          "frankfurter.dev"⟩) ∧
    (convert oracle now c a B T).cache = (get_rate oracle now c B T).cache ∧
    (convert oracle now c a B T).fetchCount =
      (get_rate oracle now c B T).fetchCount := by
  have hb' : isValidCode (to_upper B) = true := by rw [hnB]; exact hB
  have ht' : isValidCode (to_upper T) = true := by rw [hnT]; exact hT
  have hcv : convert oracle now c a B T = convert_core oracle now c a B T := by
    rw [convert_eq_core oracle now c a B T ha hb' ht', hnB, hnT]
  have hgr : get_rate oracle now c B T = get_rate_core oracle now c B T := by
    rw [get_rate_eq_core oracle now c B T hb' ht', hnB, hnT]
  rw [hcv, hgr]
  match hp : TTLCache.get c now (rateKey B T) with
  | (some hit, c1) =>
    rw [convert_core_hit oracle now c a B T hit c1 hne hp,
      get_rate_core_hit oracle now c B T hit c1 hne hp]
    exact ⟨rfl, rfl, rfl⟩
  | (none, c1) =>
    have hgr1 : get_rate oracle now c1 B T = get_rate_core oracle now c B T := by
      rw [get_rate_eq_core oracle now c1 B T hb' ht', hnB, hnT]
      exact (get_rate_core_restart_of_miss oracle now c c1 B T hne hp).symm
    rcases hr : (get_rate oracle now c1 B T).result with e | resp
    · rw [convert_core_miss_delegate_error oracle now c a B T c1 e hne hp hr,
        hgr1] at *
      rw [hgr1] at hr
      rw [hr]
      exact ⟨rfl, rfl, rfl⟩
    · rw [convert_core_miss_delegate_ok oracle now c a B T c1 resp hne hp hr,
        hgr1] at *
      rw [hgr1] at hr
      rw [hr]
      exact ⟨rfl, rfl, rfl⟩

/-- Witness for C8: USD to EUR at amount 100 against the 0.9 oracle from the
empty cache. -/
theorem C8_convert_refines_get_rate_witness :
    (convert oracle09 0 emptyCache 100 "USD" "EUR").result =
      ((get_rate oracle09 0 emptyCache "USD" "EUR").result).map
        (fun rr => ⟨"USD", "EUR", 100, 100 * rr.rate, rr.rate, rr.fetched_at,
          "frankfurter.dev"⟩) ∧
    (convert oracle09 0 emptyCache 100 "USD" "EUR").cache =
      (get_rate oracle09 0 emptyCache "USD" "EUR").cache ∧
    (convert oracle09 0 emptyCache 100 "USD" "EUR").fetchCount =
      (get_rate oracle09 0 emptyCache "USD" "EUR").fetchCount :=
  C8_convert_refines_get_rate oracle09 0 emptyCache 100 "USD" "EUR"
    (by decide) (by decide) (by decide) (by decide) (by decide) (by norm_num)

/-! ## Cache-content invariant -/

/-- Every entry reachable through the engine sits under the key derived from
its own record: the key is rate:B:T for the record's base B and target T,
which are distinct valid (uppercase three-letter) codes. -/
def CacheInv (c : Cache) : Prop :=
  ∀ k ts r, c.store k = some (ts, r) →
    isValidCode r.base = true ∧ isValidCode r.target = true ∧
    r.base ≠ r.target ∧ k = rateKey r.base r.target

/-- The startup cache satisfies the invariant vacuously. -/
lemma cacheInv_empty : CacheInv emptyCache := by
  intro k ts r hk
  simp [emptyCache] at hk

/-- After a get, every key holds either its old entry or nothing. -/
lemma TTLCache.get_store_cases {V : Type} (c : TTLCache V) (now : Timestamp)
    (k k' : String) :
    ((c.get now k).2).store k' = c.store k' ∨ ((c.get now k).2).store k' = none := by
  unfold TTLCache.get
  match hs : c.store k with
  | none => exact Or.inl rfl
  | some (ts, v) =>
    by_cases hle : now - ts ≤ c.ttl
    · exact Or.inl (by simp [hle])
    · by_cases hk : k' = k
      · exact Or.inr (by simp [hle, hk])
      · exact Or.inl (by simp [hle, hk])

/-- A get (with its lazy eviction) preserves the invariant. -/
lemma cacheInv_get (c : Cache) (h : CacheInv c) (now : Timestamp) (k : String) :
    CacheInv ((TTLCache.get c now k).2) := by
  intro k' ts r hk'
  rcases TTLCache.get_store_cases c now k k' with hc | hc
  · rw [hc] at hk'
    exact h k' ts r hk'
  · rw [hc] at hk'
    cases hk'

/-- Storing a well-formed record under its own key preserves the invariant. -/
lemma cacheInv_set (c : Cache) (h : CacheInv c) (now : Timestamp)
    (B T : String) (q : ℚ) (d : Option String)
    (hB : isValidCode B = true) (hT : isValidCode T = true) (hne : B ≠ T) :
    CacheInv (c.set now (rateKey B T) ⟨B, T, q, d⟩) := by
  intro k' ts r hk'
  simp only [TTLCache.set] at hk'
  by_cases hkk : k' = rateKey B T
  · rw [if_pos hkk] at hk'
    obtain ⟨-, hr⟩ := Prod.mk.inj (Option.some.inj hk')
    subst hr
    exact ⟨hB, hT, hne, hkk⟩
  · rw [if_neg hkk] at hk'
    exact h k' ts r hk'

/-- get_rate preserves the cache-content invariant on every path. -/
lemma cacheInv_get_rate (oracle : HttpOracle) (now : Timestamp) (c : Cache)
    (b t : String) (h : CacheInv c) :
    CacheInv ((get_rate oracle now c b t).cache) := by
  unfold get_rate get_rate_core
  split
  · exact h
  split
  · exact h
  rename_i hbv htv
  have hb : isValidCode (to_upper b) = true := by
    simpa using hbv
  have ht : isValidCode (to_upper t) = true := by
    simpa using htv
  split
  · exact h
  rename_i hne
  match hp : TTLCache.get c now (rateKey (to_upper b) (to_upper t)) with
  | (some hit, c1) =>
    have hg := cacheInv_get c h now (rateKey (to_upper b) (to_upper t))
    rw [hp] at hg
    exact hg
  | (none, c1) =>
    have hc1 : CacheInv c1 := by
      have hg := cacheInv_get c h now (rateKey (to_upper b) (to_upper t))
      rw [hp] at hg
      exact hg
    rcases hfo : fetch_rate oracle (to_upper b) (to_upper t) with e | ⟨q, d⟩
    · simp only [hfo]
      exact hc1
    · simp only [hfo]
      exact cacheInv_set c1 hc1 now (to_upper b) (to_upper t) q d hb ht hne

/-- convert preserves the cache-content invariant on every path. -/
lemma cacheInv_convert (oracle : HttpOracle) (now : Timestamp) (c : Cache)
    (a : ℚ) (b t : String) (h : CacheInv c) :
    CacheInv ((convert oracle now c a b t).cache) := by
  unfold convert convert_core
  split
  · exact h
  split
  · exact h
  split
  · exact h
  split
  · exact h
  match hp : TTLCache.get c now (rateKey (to_upper b) (to_upper t)) with
  | (some hit, c1) =>
    have hg := cacheInv_get c h now (rateKey (to_upper b) (to_upper t))
    rw [hp] at hg
    exact hg
  | (none, c1) =>
    have hc1 : CacheInv c1 := by
      have hg := cacheInv_get c h now (rateKey (to_upper b) (to_upper t))
      rw [hp] at hg
      exact hg
    rcases hr : (get_rate oracle now c1 (to_upper b) (to_upper t)).result with e | resp
    · simp only [hr]
      exact cacheInv_get_rate oracle now c1 (to_upper b) (to_upper t) hc1
    · simp only [hr]
      exact cacheInv_get_rate oracle now c1 (to_upper b) (to_upper t) hc1

/-- C9: the cache-content invariant holds of the startup cache and is
preserved by every get_rate and convert invocation: in every reachable
state, every entry's key is rate:B:T for the distinct valid uppercase codes
B and T that are exactly the stored record's base and target fields. -/
theorem C9_cache_content_invariant (oracle : HttpOracle) (now : Timestamp)
    (c : Cache) (a : ℚ) (b t : String) (h : CacheInv c) :
    CacheInv emptyCache ∧
    CacheInv ((get_rate oracle now c b t).cache) ∧
    CacheInv ((convert oracle now c a b t).cache) :=
  ⟨cacheInv_empty, cacheInv_get_rate oracle now c b t h,
    cacheInv_convert oracle now c a b t h⟩

/-- Witness for C9: one get_rate and one convert step from the startup
state. -/
theorem C9_cache_content_invariant_witness :
    CacheInv emptyCache ∧
    CacheInv ((get_rate oracle09 0 emptyCache "usd" "EUR").cache) ∧
    CacheInv ((convert oracle09 0 emptyCache 5 "usd" "EUR").cache) :=
  C9_cache_content_invariant oracle09 0 emptyCache 5 "usd" "EUR" cacheInv_empty

/-! ## Per-call frame property -/

/-- get_rate leaves every key other than its own pair's key exactly as it
was. -/
lemma get_rate_frame (oracle : HttpOracle) (now : Timestamp) (c : Cache)
    (b t k : String) (hk : k ≠ rateKey (to_upper b) (to_upper t)) :
    ((get_rate oracle now c b t).cache).store k = c.store k := by
  unfold get_rate get_rate_core
  split
  · rfl
  split
  · rfl
  split
  · rfl
  match hp : TTLCache.get c now (rateKey (to_upper b) (to_upper t)) with
  | (some hit, c1) =>
    have hg := TTLCache.get_store_other c now (rateKey (to_upper b) (to_upper t)) k hk
    rw [hp] at hg
    exact hg
  | (none, c1) =>
    have hother : c1.store k = c.store k := by
      have hg := TTLCache.get_store_other c now (rateKey (to_upper b) (to_upper t)) k hk
      rw [hp] at hg
      exact hg
    rcases hfo : fetch_rate oracle (to_upper b) (to_upper t) with e | ⟨q, d⟩
    · simp only [hfo]
      exact hother
    · simp only [hfo]
      rw [TTLCache.set_store_other c1 now (rateKey (to_upper b) (to_upper t)) k _ hk]
      exact hother

/-- convert leaves every key other than its own pair's key exactly as it
was. -/
lemma convert_frame (oracle : HttpOracle) (now : Timestamp) (c : Cache)
    (a : ℚ) (b t k : String) (hk : k ≠ rateKey (to_upper b) (to_upper t)) :
    ((convert oracle now c a b t).cache).store k = c.store k := by
  unfold convert convert_core
  split
  · rfl
  split
  · rfl
  rename_i hbv
  split
  · rfl
  rename_i htv
  have hb : isValidCode (to_upper b) = true := by
    simpa using hbv
  have ht : isValidCode (to_upper t) = true := by
    simpa using htv
  have hk' : k ≠ rateKey (to_upper (to_upper b)) (to_upper (to_upper t)) := by
    rw [to_upper_of_valid hb, to_upper_of_valid ht]
    exact hk
  split
  · rfl
  match hp : TTLCache.get c now (rateKey (to_upper b) (to_upper t)) with
  | (some hit, c1) =>
    have hg := TTLCache.get_store_other c now (rateKey (to_upper b) (to_upper t)) k hk
    rw [hp] at hg
    exact hg
  | (none, c1) =>
    have hother : c1.store k = c.store k := by
      have hg := TTLCache.get_store_other c now (rateKey (to_upper b) (to_upper t)) k hk
      rw [hp] at hg
      exact hg
    rcases hr : (get_rate oracle now c1 (to_upper b) (to_upper t)).result with e | resp
    · simp only [hr]
      exact (get_rate_frame oracle now c1 (to_upper b) (to_upper t) k hk').trans hother
    · simp only [hr]
      exact (get_rate_frame oracle now c1 (to_upper b) (to_upper t) k hk').trans hother

/-- C10: per-call cache footprint: a single get_rate or convert invocation
reads or writes at most the entry under the key of its own normalized pair;
every entry under any other key keeps its exact value and insertion
timestamp (in particular neither operation ever clears the cache). -/
theorem C10_per_call_cache_footprint (oracle : HttpOracle) (now : Timestamp)
    (c : Cache) (a : ℚ) (b t k : String)
    (hk : k ≠ rateKey (to_upper b) (to_upper t)) :
    ((get_rate oracle now c b t).cache).store k = c.store k ∧
    ((convert oracle now c a b t).cache).store k = c.store k :=
  ⟨get_rate_frame oracle now c b t k hk, convert_frame oracle now c a b t k hk⟩

/-- Witness for C10: a lookup and a conversion of the usd/EUR pair leave the
stale cache's entry under the reversed pair's key untouched. -/
theorem C10_per_call_cache_footprint_witness :
    ((get_rate oracle09 3 staleCache "usd" "EUR").cache).store
        (rateKey "EUR" "USD") = staleCache.store (rateKey "EUR" "USD") ∧
    ((convert oracle09 3 staleCache 2 "usd" "EUR").cache).store
        (rateKey "EUR" "USD") = staleCache.store (rateKey "EUR" "USD") :=
  C10_per_call_cache_footprint oracle09 3 staleCache 2 "usd" "EUR"
    (rateKey "EUR" "USD") (by decide)

end FxServer
